import Mathlib

/-!
Verification of the crypto-converter repository's core logic: a shallow
embedding of its quote storage (SQLite TEXT timestamps compared as ISO-8601
strings), the conversion-rate resolver, the API validators and the quote
consumer, together with theorems settling the specified properties.

Conventions of the embedding:
* Python `datetime.datetime` values are modelled by `PyDateTime` (calendar
  fields plus an optional fixed UTC offset in minutes; `none` = naive).
* The database stores `timestamp.isoformat()` TEXT; SQLite compares TEXT
  with `memcmp`, which on the ASCII strings produced by `isoformat` is
  exactly the character-wise lexicographic order of Lean `String`s.
* Prices are modelled as exact rationals; no settled claim depends on
  floating-point rounding.
-/

set_option maxRecDepth 4000

namespace CryptoConverter

/-- Model of a Python `datetime.datetime`: proleptic-Gregorian calendar
fields and an optional fixed UTC offset in minutes east of UTC
(`offset = none` models a naive datetime). -/
structure PyDateTime where
  year : Nat
  month : Nat
  day : Nat
  hour : Nat
  minute : Nat
  second : Nat
  microsecond : Nat
  offset : Option Int
  deriving DecidableEq, Repr

/-- The decimal digit character for `d % 10`-sized arguments. -/
def decDigit : Nat → Char
  | 0 => '0'
  | 1 => '1'
  | 2 => '2'
  | 3 => '3'
  | 4 => '4'
  | 5 => '5'
  | 6 => '6'
  | 7 => '7'
  | 8 => '8'
  | _ => '9'

/-- Zero-padded, fixed-width (`k` characters) decimal rendering of `n`,
most significant digit first: the way Python renders each `isoformat`
field. -/
def padDigits : Nat → Nat → List Char
  | 0, _ => []
  | k + 1, n => padDigits k (n / 10) ++ [decDigit (n % 10)]

/-- The characters of a fixed-offset `tzinfo` in `isoformat` (`"+HH:MM"` or
`"-HH:MM"`), empty for a naive datetime. -/
def offChars : Option Int → List Char
  | none => []
  | some o =>
      (if o < 0 then '-' else '+') ::
        (padDigits 2 (o.natAbs / 60) ++ ':' :: padDigits 2 (o.natAbs % 60))

/-- The fractional-seconds characters of `isoformat`: omitted when the
microsecond field is zero, otherwise `".ffffff"`. -/
def microChars (micro : Nat) : List Char :=
  if micro = 0 then [] else '.' :: padDigits 6 micro

/-- Characters of Python `datetime.isoformat()`:
`YYYY-MM-DDTHH:MM:SS[.ffffff][±HH:MM]`. -/
def isoChars (d : PyDateTime) : List Char :=
  padDigits 4 d.year ++
    '-' :: (padDigits 2 d.month ++
      '-' :: (padDigits 2 d.day ++
        'T' :: (padDigits 2 d.hour ++
          ':' :: (padDigits 2 d.minute ++
            ':' :: (padDigits 2 d.second ++
              (microChars d.microsecond ++ offChars d.offset))))))

/-- Python `datetime.isoformat()` as a Lean `String`.  This is the TEXT the
storage layer persists and compares. -/
def isoString (d : PyDateTime) : String :=
  String.mk (isoChars d)

/-- The TEXT comparison SQLite applies to stored timestamps: `memcmp` on
the `isoformat` bytes, which on these ASCII strings is exactly the
character-wise lexicographic order (equal to Lean's `String` order on
`isoString`, see `isoLtB_eq_true_iff`); stated over `List.Lex` so that it
evaluates by kernel reduction. -/
def isoLtB (a b : PyDateTime) : Bool :=
  decide (List.Lex (· < ·) (isoChars a) (isoChars b))

/-- Day count of a proleptic-Gregorian date relative to 1970-01-01
(the standard civil-from-days correspondence used to interpret
`datetime` arithmetic). -/
def daysFromCivil (y m d : Nat) : Int :=
  let yy : Int := (y : Int) - (if m ≤ 2 then 1 else 0)
  let era : Int := yy.fdiv 400
  let yoe : Int := yy - era * 400
  let mp : Int := ((m : Int) + 9) % 12
  let doy : Int := (153 * mp + 2).fdiv 5 + (d : Int) - 1
  let doe : Int := yoe * 365 + yoe.fdiv 4 - yoe.fdiv 100 + doy
  era * 146097 + doe - 719468

/-- Inverse of `daysFromCivil`: the (year, month, day) of a day count. -/
def civilFromDays (z : Int) : Nat × Nat × Nat :=
  let z' : Int := z + 719468
  let era : Int := z'.fdiv 146097
  let doe : Int := z' - era * 146097
  let yoe : Int := (doe - doe.fdiv 1460 + doe.fdiv 36524 - doe.fdiv 146096).fdiv 365
  let y : Int := yoe + era * 400
  let doy : Int := doe - (365 * yoe + yoe.fdiv 4 - yoe.fdiv 100)
  let mp : Int := (5 * doy + 2).fdiv 153
  let d : Int := doy - (153 * mp + 2).fdiv 5 + 1
  let m : Int := mp + (if mp < 10 then 3 else -9)
  (((if m ≤ 2 then y + 1 else y)).toNat, m.toNat, d.toNat)

/-- The instant a `PyDateTime` denotes, in microseconds since the epoch; a
naive datetime is read at UTC (offset 0), matching how every comparison in
the source converts naive values (`replace(tzinfo=UTC)`). -/
def instantUs (d : PyDateTime) : Int :=
  (daysFromCivil d.year d.month d.day) * 86400000000 +
    ((d.hour * 3600 + d.minute * 60 + d.second : Nat) : Int) * 1000000 +
    (d.microsecond : Int) -
    (match d.offset with | none => 0 | some o => o) * 60000000

/-- The UTC calendar day (as an epoch day count) on which the instant of a
`PyDateTime` falls; for a naive value this is the calendar day of its own
fields. -/
def utcDayIndex (d : PyDateTime) : Int :=
  (instantUs d).fdiv 86400000000

/-- Field bounds guaranteed by Python for every constructible `datetime`:
`1 ≤ year ≤ 9999`, `1 ≤ month ≤ 12`, `1 ≤ day ≤ 31`, time fields within a
day, and a tz offset strictly inside ±24 hours. -/
def PyValid (d : PyDateTime) : Prop :=
  1 ≤ d.year ∧ d.year ≤ 9999 ∧ 1 ≤ d.month ∧ d.month ≤ 12 ∧
    1 ≤ d.day ∧ d.day ≤ 31 ∧ d.hour ≤ 23 ∧ d.minute ≤ 59 ∧ d.second ≤ 59 ∧
    d.microsecond ≤ 999999 ∧ ∀ o, d.offset = some o → o.natAbs ≤ 1439

instance (d : PyDateTime) : Decidable (PyValid d) := by
  unfold PyValid
  infer_instance

/-- Strict "calendar order" on the naive fields of two datetimes:
lexicographic on (year, month, day, hour, minute, second, microsecond).
For two datetimes carrying the same UTC offset this is exactly
chronological order. -/
def keyLt (a b : PyDateTime) : Prop :=
  a.year < b.year ∨ a.year = b.year ∧
    (a.month < b.month ∨ a.month = b.month ∧
      (a.day < b.day ∨ a.day = b.day ∧
        (a.hour < b.hour ∨ a.hour = b.hour ∧
          (a.minute < b.minute ∨ a.minute = b.minute ∧
            (a.second < b.second ∨ a.second = b.second ∧
              a.microsecond < b.microsecond)))))

instance (a b : PyDateTime) : Decidable (keyLt a b) := by
  unfold keyLt
  infer_instance

/-- Two datetimes lie on the same calendar date (same naive Y-M-D fields). -/
def sameDate (a b : PyDateTime) : Prop :=
  a.year = b.year ∧ a.month = b.month ∧ a.day = b.day

instance (a b : PyDateTime) : Decidable (sameDate a b) := by
  unfold sameDate
  infer_instance

/-! ### Quote model (`storage/models.py`) -/

/-- A quote row: trading-pair symbol, price, timestamp
(`storage/models.py::Quote`; the database row stores
`timestamp.isoformat()` TEXT, which round-trips losslessly through
`datetime.fromisoformat`, so rows are modelled by the quote itself). -/
structure Quote where
  symbol : String
  price : ℚ
  timestamp : PyDateTime
  deriving DecidableEq, Repr

/-- Pydantic construction of `storage/models.py::Quote`: the model config
strips surrounding whitespace from `symbol` and the `price` field carries
`Field(gt=0)`, so construction fails (`ValidationError`) unless the price
is strictly positive. -/
def pydanticQuote (symbol : String) (price : ℚ) (timestamp : PyDateTime) :
    Option Quote :=
  if 0 < price then some { symbol := symbol.trim, price := price, timestamp := timestamp }
  else none

/-! ### Quote storage (`storage/quote_storage.py`) -/

/-- The quotes table: a list of rows in insertion order. -/
abbrev QuoteDb := List Quote

/-- `QuoteStorage.save_quotes`: `INSERT` appends each quote as a row (an
empty batch is a no-op, which `db ++ [] = db` reflects). -/
def save_quotes (db : QuoteDb) (quotes : List Quote) : QuoteDb :=
  db ++ quotes

/-- The row produced by `ORDER BY timestamp DESC LIMIT 1`: a row whose
`isoformat` TEXT is lexicographically maximal (SQLite compares TEXT by
`memcmp`; among rows with equal timestamp TEXT the returned row is
unspecified, and this model keeps the earliest inserted one). -/
def selectLatest : List Quote → Option Quote
  | [] => none
  | q :: qs =>
      some (match selectLatest qs with
        | none => q
        | some b => if isoLtB q.timestamp b.timestamp then b else q)

/-- `datetime.combine(target_date, datetime.min.time())` with the target's
tzinfo re-attached when aware: midnight of the target's calendar date. -/
def day_start (t : PyDateTime) : PyDateTime :=
  { t with hour := 0, minute := 0, second := 0, microsecond := 0 }

/-- `datetime.combine(target_date, datetime.max.time())` with the target's
tzinfo re-attached when aware: 23:59:59.999999 of the target's date. -/
def day_end (t : PyDateTime) : PyDateTime :=
  { t with hour := 23, minute := 59, second := 59, microsecond := 999999 }

/-- The SQL window `timestamp >= day_start AND timestamp <= day_end`,
a TEXT (string) comparison in SQLite. -/
def inDayWindow (t : PyDateTime) (ts : PyDateTime) : Bool :=
  !isoLtB ts (day_start t) && !isoLtB (day_end t) ts

/-- `QuoteStorage.get_quote_closest_timestamp`: the row for the symbol with
the greatest timestamp TEXT inside the target day's TEXT window. -/
def get_quote_closest_timestamp (db : QuoteDb) (symbol : String)
    (target_timestamp : PyDateTime) : Option Quote :=
  selectLatest (db.filter fun r =>
    r.symbol == symbol && inDayWindow target_timestamp r.timestamp)

/-- `QuoteStorage.get_quote`: latest row for the symbol, or the same-day
lookup when a timestamp is supplied (a `datetime` is always truthy, so
`if timestamp:` distinguishes exactly `None`). -/
def get_quote (db : QuoteDb) (symbol : String) (timestamp : Option PyDateTime) :
    Option Quote :=
  match timestamp with
  | some t => get_quote_closest_timestamp db symbol t
  | none => selectLatest (db.filter fun r => r.symbol == symbol)

/-- `QUOTE_FRESHNESS_SECONDS`: maximum age for live conversion quotes. -/
def QUOTE_FRESHNESS_SECONDS : Nat := 60

/-- `QuoteStorage.is_quote_expired`: the quote's timestamp (naive read as
UTC) is more than 60 seconds before `now`; `nowUs` is the instant of
`datetime.now(UTC)` in microseconds. -/
def is_quote_expired (nowUs : Int) (quote : Quote) : Bool :=
  decide ((QUOTE_FRESHNESS_SECONDS : Int) * 1000000 < nowUs - instantUs quote.timestamp)

/-- `ERROR_QUOTES_OUTDATED` error code. -/
def ERROR_QUOTES_OUTDATED : String := "quotes_outdated"

/-- Result of `QuoteStorage.get_conversion_rate`: `None`, the outdated
error dict, or the rate dict. -/
inductive RateResult where
  | notFound
  | outdated (error message : String)
  | ok (rate : ℚ) (from_quote to_quote : Quote)
  deriving DecidableEq, Repr

/-- `QuoteStorage.get_conversion_rate`: fetch both quotes, apply the
freshness check only when no timestamp was supplied, else divide. -/
def get_conversion_rate (db : QuoteDb) (from_symbol to_symbol : String)
    (timestamp : Option PyDateTime) (nowUs : Int) : RateResult :=
  match get_quote db from_symbol timestamp, get_quote db to_symbol timestamp with
  | some from_quote, some to_quote =>
      if timestamp.isNone &&
          (is_quote_expired nowUs from_quote || is_quote_expired nowUs to_quote) then
        .outdated ERROR_QUOTES_OUTDATED "Quotes are older than 60 seconds"
      else
        .ok (from_quote.price / to_quote.price) from_quote to_quote
  | _, _ => .notFound

/-- `datetime - timedelta(days=n)`: subtract whole days from the calendar
date, keeping time-of-day and tzinfo. -/
def sub_days (now : PyDateTime) (n : Nat) : PyDateTime :=
  let c := civilFromDays (daysFromCivil now.year now.month now.day - (n : Int))
  { now with year := c.1, month := c.2.1, day := c.2.2 }

/-- `QuoteStorage.cleanup_old_quotes`: `DELETE WHERE timestamp < cutoff`
with `cutoff = (datetime.now(UTC) - timedelta(days=retention_days))
.isoformat()`, again a TEXT comparison; `nowUtc` is the aware UTC value of
`datetime.now(UTC)`. -/
def cleanup_old_quotes (db : QuoteDb) (nowUtc : PyDateTime)
    (retention_days : Nat) : QuoteDb :=
  let cutoff := sub_days nowUtc retention_days
  db.filter fun r => !isoLtB r.timestamp cutoff

/-! ### API validators (`api/validators.py`, `api/service.py`) -/

/-- Python `s[-n:]` for `1 ≤ n ≤ len s`: the last `n` characters. -/
def strTakeRight (s : String) (n : Nat) : String :=
  String.mk (s.data.drop (s.data.length - n))

/-- Python `str.endswith`. -/
def pyEndsWith (s t : String) : Bool :=
  t.data.isSuffixOf s.data

/-- The message of the 422 `HTTPException` raised by
`validate_same_base_currencies`. -/
def crossCurrencyMessage (from_currency to_currency : String) : String :=
  "Cross-currency conversion from " ++ from_currency ++ " to " ++ to_currency ++
    " is not supported. Both currencies must share the same base currency."

/-- `validate_same_base_currencies`: try suffix lengths from
`min_length - 2` down to `3` (`range(min_length - 2, 2, -1)`); pass
(`none`) on the first suffix of `from_currency` that `to_currency` ends
with, otherwise raise (`some message`). -/
def validate_same_base_currencies (from_currency to_currency : String) :
    Option String :=
  let min_length := min from_currency.length to_currency.length
  let candidates := (List.range' 3 (min_length - 4)).reverse
  match candidates.find?
      (fun base_length => pyEndsWith to_currency (strTakeRight from_currency base_length)) with
  | some _ => none
  | none => some (crossCurrencyMessage from_currency to_currency)

/-- `api/service.py::_is_direct_pair`: both symbols end with one of the
enumerated common bases. -/
def is_direct_pair (from_symbol to_symbol : String) : Bool :=
  ["USDT", "BTC", "ETH", "BNB"].any fun base =>
    pyEndsWith from_symbol base && pyEndsWith to_symbol base

/-- Python `s.replace("Z", "+00:00")` (single-character pattern). -/
def pyReplaceZ (s : String) : String :=
  String.mk ((s.data.map fun c => if c = 'Z' then "+00:00".data else [c]).flatten)

/-- Gregorian leap-year test, as Python `calendar.isleap`. -/
def isLeapYear (y : Nat) : Bool :=
  (y % 4 == 0 && y % 100 != 0) || y % 400 == 0

/-- Number of days in a month, as validated by `datetime`. -/
def daysInMonth (y m : Nat) : Nat :=
  if m = 2 then (if isLeapYear y then 29 else 28)
  else if m = 4 ∨ m = 6 ∨ m = 9 ∨ m = 11 then 30
  else 31

/-- Value of a decimal digit character. -/
def digitVal (c : Char) : Option Nat :=
  if '0' ≤ c ∧ c ≤ '9' then some (c.toNat - 48) else none

/-- Read exactly `k` decimal digits (most significant first). -/
def readFixed : Nat → Nat → List Char → Option (Nat × List Char)
  | 0, acc, cs => some (acc, cs)
  | k + 1, acc, c :: cs =>
      match digitVal c with
      | some d => readFixed k (acc * 10 + d) cs
      | none => none
  | _ + 1, _, [] => none

/-- Parse an optional `±HH:MM` UTC offset at the end of the input. -/
def parseOffset : List Char → Option (Option Int)
  | [] => some none
  | c :: cs =>
      if c = '+' ∨ c = '-' then
        match readFixed 2 0 cs with
        | some (h, ':' :: cs') =>
            match readFixed 2 0 cs' with
            | some (m, []) =>
                if h ≤ 23 ∧ m ≤ 59 then
                  some (some ((if c = '-' then -1 else 1) * ((h : Int) * 60 + m)))
                else none
            | _ => none
        | _ => none
      else none

/-- Parse `[.f{1..6}]` fractional seconds followed by an optional offset. -/
def parseFraction : List Char → Option (Nat × Option Int)
  | '.' :: cs =>
      let ds := cs.takeWhile fun c => (digitVal c).isSome
      let rest := cs.dropWhile fun c => (digitVal c).isSome
      if 1 ≤ ds.length ∧ ds.length ≤ 6 then
        match parseOffset rest with
        | some off =>
            some (ds.foldl (fun a c => a * 10 + (c.toNat - 48)) 0 * 10 ^ (6 - ds.length), off)
        | none => none
      else none
  | cs =>
      match parseOffset cs with
      | some off => some (0, off)
      | none => none

/-- Parse `HH:MM[:SS[.ffffff]][±HH:MM]`. -/
def parseTime (cs : List Char) : Option (Nat × Nat × Nat × Nat × Option Int) :=
  match readFixed 2 0 cs with
  | some (h, ':' :: cs₁) =>
      (match readFixed 2 0 cs₁ with
        | some (mi, ':' :: cs₂) =>
            (match readFixed 2 0 cs₂ with
              | some (s, cs₃) =>
                  (match parseFraction cs₃ with
                    | some (micro, off) =>
                        if h ≤ 23 ∧ mi ≤ 59 ∧ s ≤ 59 then some (h, mi, s, micro, off)
                        else none
                    | none => none)
              | none => none)
        | some (mi, cs₂) =>
            (match parseOffset cs₂ with
              | some off => if h ≤ 23 ∧ mi ≤ 59 then some (h, mi, 0, 0, off) else none
              | none => none)
        | none => none)
  | _ => none

/-- Model of `datetime.fromisoformat` on the grammar this repository
exercises: `YYYY-MM-DD[THH:MM[:SS[.ffffff]]][±HH:MM]`, with the same field
range validation as Python (rejecting e.g. month 13). -/
def fromisoformat (s : String) : Option PyDateTime :=
  match readFixed 4 0 s.data with
  | some (y, '-' :: cs₁) =>
      (match readFixed 2 0 cs₁ with
        | some (mo, '-' :: cs₂) =>
            (match readFixed 2 0 cs₂ with
              | some (d, cs₃) =>
                  let core := fun (t : Nat × Nat × Nat × Nat × Option Int) =>
                    if 1 ≤ y ∧ y ≤ 9999 ∧ 1 ≤ mo ∧ mo ≤ 12 ∧ 1 ≤ d ∧ d ≤ daysInMonth y mo then
                      some (PyDateTime.mk y mo d t.1 t.2.1 t.2.2.1 t.2.2.2.1 t.2.2.2.2)
                    else none
                  (match cs₃ with
                    | [] => core (0, 0, 0, 0, none)
                    | 'T' :: cs₄ =>
                        (match parseTime cs₄ with
                          | some t => core t
                          | none => none)
                    | ' ' :: cs₄ =>
                        (match parseTime cs₄ with
                          | some t => core t
                          | none => none)
                    | _ => none)
              | none => none)
        | _ => none)
  | _ => none

/-- The `timestamp` argument of `validate_timestamp`
(`str | datetime | None`). -/
inductive TsParam where
  | null
  | str (s : String)
  | dt (d : PyDateTime)
  deriving DecidableEq, Repr

/-- `api/validators.py::validate_timestamp`: `None` and `""` both map to
`None`; a `datetime` passes through; a string is parsed after rewriting
`"Z"` to `"+00:00"`, raising `ValueError` (modelled by `.error`) when the
rewritten string is not ISO formatted. -/
def validate_timestamp : TsParam → Except String (Option PyDateTime)
  | .null => .ok none
  | .str s =>
      if s = "" then .ok none
      else
        match fromisoformat (pyReplaceZ s) with
        | some d => .ok (some d)
        | none => .error "Timestamp must be in ISO format (e.g., '2023-01-01T12:00:00Z')"
  | .dt d => .ok (some d)

/-- The timestamp handling inside `api/service.py::convert_currency`:
`target_timestamp` stays `None` for a falsy parameter (absent or empty
string, since `if timestamp:`), otherwise the string is parsed after the
same `"Z"` rewrite, with a 400 `invalid_timestamp` error on failure. -/
def endpoint_parse_timestamp (timestamp : Option String) :
    Except String (Option PyDateTime) :=
  match timestamp with
  | none => .ok none
  | some s =>
      if s = "" then .ok none
      else
        match fromisoformat (pyReplaceZ s) with
        | some d => .ok (some d)
        | none => .error "invalid_timestamp"

/-! ### Quote consumer (`quote_consumer/service.py`) -/

/-- One entry of the Binance `/api/v3/ticker/price` response: the
`"symbol"` and `"price"` fields, each possibly missing; the price value is
the raw string Binance sends. -/
structure TickerEntry where
  symbol : Option String
  price : Option String
  deriving DecidableEq, Repr

/-- Python `str.upper()` (the symbols involved are ASCII). -/
def pyUpper (s : String) : String := s.toUpper

/-- Model of Python `float(s)` on the decimal-literal fragment the feed
produces (optional sign, digits with an optional fractional part);
any other input raises `ValueError`, modelled as `none`. -/
def pyFloat (s : String) : Option ℚ :=
  let step := fun (cs : List Char) =>
    let ip := cs.takeWhile fun c => (digitVal c).isSome
    let rest := cs.dropWhile fun c => (digitVal c).isSome
    let ipVal : ℚ := ip.foldl (fun a c => a * 10 + ((c.toNat - 48 : Nat) : ℚ)) 0
    match rest with
    | [] => if ip = [] then none else some ipVal
    | '.' :: rest' =>
        let fp := rest'.takeWhile fun c => (digitVal c).isSome
        let rest'' := rest'.dropWhile fun c => (digitVal c).isSome
        if rest'' = [] ∧ (ip ≠ [] ∨ fp ≠ []) then
          some (ipVal + (fp.foldl (fun a c => a * 10 + ((c.toNat - 48 : Nat) : ℚ)) 0) /
            (10 ^ fp.length : ℚ))
        else none
    | _ => none
  match s.data with
  | '-' :: cs => (step cs).map (fun q => -q)
  | '+' :: cs => step cs
  | cs => step cs

/-- `QuoteConsumer._parse_binance_rest_ticker`: `None` when a field is
missing or the price fails to parse (`ValueError` is caught and logged);
a `Quote` stamped with the batch's observation time when the uppercased
symbol is non-empty and the price is strictly positive. -/
def parse_binance_rest_ticker (data : TickerEntry) (timestamp : PyDateTime) :
    Option Quote :=
  match data.symbol, data.price with
  | some rawSymbol, some rawPrice =>
      let symbol := pyUpper rawSymbol
      (match pyFloat rawPrice with
        | some price =>
            if symbol ≠ "" ∧ 0 < price then pydanticQuote symbol price timestamp
            else none
        | none => none)
  | _, _ => none

/-- The parsing step of `QuoteConsumer._fetch_quotes_http`: the list
comprehension keeps exactly the entries that parse, in order
(`[quote for item in data if (quote := parse(item))]`). -/
def fetch_quotes_parse (data : List TickerEntry) (current_time : PyDateTime) :
    List Quote :=
  data.filterMap fun item => parse_binance_rest_ticker item current_time

/-- The consumer's mutable state relevant to flushing: the in-memory
buffer and the persisted table. -/
structure ConsumerState where
  quotes_buffer : List Quote
  db : QuoteDb
  deriving DecidableEq, Repr

/-- `QuoteConsumer._flush_quotes_buffer`: copy the buffer, return early if
the copy is empty, clear the buffer, then `await save_quotes(copy)`.
`saveOk = false` models `save_quotes` raising a storage error before
committing: the exception propagates but the buffer is already cleared and
nothing re-inserts the copied batch. -/
def flush_quotes_buffer (st : ConsumerState) (saveOk : Bool) : ConsumerState :=
  let quotes_to_save := st.quotes_buffer
  if quotes_to_save = [] then st
  else
    { quotes_buffer := [],
      db := if saveOk then save_quotes st.db quotes_to_save else st.db }

/-! ### Lexicographic order of ISO strings vs calendar order -/

theorem lex_cons_iff' {α : Type} {r : α → α → Prop} {a b : α} {s t : List α} :
    List.Lex r (a :: s) (b :: t) ↔ r a b ∨ (a = b ∧ List.Lex r s t) := by
  constructor
  · intro h
    cases h with
    | rel h => exact Or.inl h
    | cons h => exact Or.inr ⟨rfl, h⟩
  · rintro (h | ⟨rfl, h⟩)
    · exact List.Lex.rel h
    · exact List.Lex.cons h

theorem lex_irrefl {α : Type} [Preorder α] (l : List α) :
    ¬ List.Lex (· < ·) l l := by
  induction l with
  | nil => intro h; cases h
  | cons a t ih =>
      intro h
      rcases lex_cons_iff'.mp h with h | ⟨-, h⟩
      · exact lt_irrefl a h
      · exact ih h

theorem lex_append_iff {α : Type} {r : α → α → Prop} :
    ∀ {x y : List α}, x.length = y.length → ∀ (u v : List α),
      (List.Lex r (x ++ u) (y ++ v) ↔ List.Lex r x y ∨ (x = y ∧ List.Lex r u v)) := by
  intro x
  induction x with
  | nil =>
      intro y hlen u v
      cases y with
      | nil => simp
      | cons b t => simp at hlen
  | cons a s ih =>
      intro y hlen u v
      cases y with
      | nil => simp at hlen
      | cons b t =>
          simp only [List.cons_append]
          rw [lex_cons_iff' (r := r), lex_cons_iff' (r := r),
            ih (by simpa using hlen) u v]
          simp only [List.cons.injEq]
          tauto

theorem lex_same_cons_iff {c : Char} {s t : List Char} :
    List.Lex (· < ·) (c :: s) (c :: t) ↔ List.Lex (· < ·) s t := by
  rw [lex_cons_iff']
  simp [lt_irrefl]

theorem decDigit_lt_iff {a b : Nat} (ha : a < 10) (hb : b < 10) :
    (decDigit a < decDigit b) ↔ a < b := by
  interval_cases a <;> interval_cases b <;> decide

theorem decDigit_inj {a b : Nat} (ha : a < 10) (hb : b < 10) :
    decDigit a = decDigit b ↔ a = b := by
  interval_cases a <;> interval_cases b <;> decide

theorem padDigits_length (k n : Nat) : (padDigits k n).length = k := by
  induction k generalizing n with
  | zero => rfl
  | succ k ih => simp [padDigits, ih]

theorem padDigits_inj : ∀ {k a b : Nat}, a < 10 ^ k → b < 10 ^ k →
    (padDigits k a = padDigits k b ↔ a = b) := by
  intro k
  induction k with
  | zero =>
      intro a b ha hb
      simp only [pow_zero, Nat.lt_one_iff] at ha hb
      simp [padDigits, ha, hb]
  | succ k ih =>
      intro a b ha hb
      have ha' : a / 10 < 10 ^ k := by
        rw [Nat.div_lt_iff_lt_mul (by norm_num)]
        calc a < 10 ^ (k + 1) := ha
          _ = 10 ^ k * 10 := by ring
      have hb' : b / 10 < 10 ^ k := by
        rw [Nat.div_lt_iff_lt_mul (by norm_num)]
        calc b < 10 ^ (k + 1) := hb
          _ = 10 ^ k * 10 := by ring
      simp only [padDigits]
      constructor
      · intro h
        obtain ⟨h1, h2⟩ := List.append_inj' h (by simp)
        have e1 := (ih ha' hb').mp h1
        have e2 := (decDigit_inj (Nat.mod_lt _ (by norm_num))
          (Nat.mod_lt _ (by norm_num))).mp (by simpa using h2)
        omega
      · rintro rfl
        rfl

theorem padDigits_lt_iff : ∀ {k a b : Nat}, a < 10 ^ k → b < 10 ^ k →
    (List.Lex (· < ·) (padDigits k a) (padDigits k b) ↔ a < b) := by
  intro k
  induction k with
  | zero =>
      intro a b ha hb
      simp only [pow_zero, Nat.lt_one_iff] at ha hb
      subst ha
      subst hb
      simp only [padDigits]
      constructor
      · intro h; cases h
      · omega
  | succ k ih =>
      intro a b ha hb
      have ha' : a / 10 < 10 ^ k := by
        rw [Nat.div_lt_iff_lt_mul (by norm_num)]
        calc a < 10 ^ (k + 1) := ha
          _ = 10 ^ k * 10 := by ring
      have hb' : b / 10 < 10 ^ k := by
        rw [Nat.div_lt_iff_lt_mul (by norm_num)]
        calc b < 10 ^ (k + 1) := hb
          _ = 10 ^ k * 10 := by ring
      simp only [padDigits]
      rw [lex_append_iff (by simp [padDigits_length]) _ _, ih ha' hb',
        padDigits_inj ha' hb', List.Lex.singleton_iff,
        decDigit_lt_iff (Nat.mod_lt _ (by norm_num)) (Nat.mod_lt _ (by norm_num))]
      omega

theorem padSeg_lex_iff {k a b : Nat} (ha : a < 10 ^ k) (hb : b < 10 ^ k)
    (u v : List Char) :
    List.Lex (· < ·) (padDigits k a ++ u) (padDigits k b ++ v) ↔
      a < b ∨ (a = b ∧ List.Lex (· < ·) u v) := by
  rw [lex_append_iff (by simp [padDigits_length]) u v, padDigits_lt_iff ha hb,
    padDigits_inj ha hb]

theorem microTail_lex_iff {m₁ m₂ : Nat} (h₁ : m₁ ≤ 999999) (h₂ : m₂ ≤ 999999)
    (o : Option Int) :
    List.Lex (· < ·) (microChars m₁ ++ offChars o) (microChars m₂ ++ offChars o) ↔
      m₁ < m₂ := by
  by_cases e₁ : m₁ = 0 <;> by_cases e₂ : m₂ = 0
  · rw [show microChars m₁ = [] by simp [microChars, e₁],
      show microChars m₂ = [] by simp [microChars, e₂]]
    simp only [List.nil_append]
    constructor
    · intro h
      exact absurd h (lex_irrefl _)
    · omega
  · rw [show microChars m₁ = [] by simp [microChars, e₁],
      show microChars m₂ ++ offChars o = '.' :: (padDigits 6 m₂ ++ offChars o) by
        simp [microChars, e₂]]
    simp only [List.nil_append]
    constructor
    · intro _
      omega
    · intro _
      cases ho : offChars o with
      | nil => exact List.Lex.nil
      | cons c rest =>
          have hc : c = '-' ∨ c = '+' := by
            cases o with
            | none => simp [offChars] at ho
            | some v =>
                by_cases hv : v < 0 <;> simp [offChars, hv] at ho
                · exact Or.inl ho.1.symm
                · exact Or.inr ho.1.symm
          rcases hc with rfl | rfl
          · exact List.Lex.rel (by decide)
          · exact List.Lex.rel (by decide)
  · rw [show microChars m₂ = [] by simp [microChars, e₂],
      show microChars m₁ ++ offChars o = '.' :: (padDigits 6 m₁ ++ offChars o) by
        simp [microChars, e₁]]
    simp only [List.nil_append]
    constructor
    · intro h
      exfalso
      cases ho : offChars o with
      | nil =>
          rw [ho] at h
          exact List.Lex.not_nil_right _ _ h
      | cons c rest =>
          have hc : c = '-' ∨ c = '+' := by
            cases o with
            | none => simp [offChars] at ho
            | some v =>
                by_cases hv : v < 0 <;> simp [offChars, hv] at ho
                · exact Or.inl ho.1.symm
                · exact Or.inr ho.1.symm
          rw [ho] at h
          rcases lex_cons_iff'.mp h with h' | ⟨h', -⟩ <;>
            rcases hc with rfl | rfl <;> revert h' <;> decide
    · omega
  · rw [show microChars m₁ ++ offChars o = '.' :: (padDigits 6 m₁ ++ offChars o) by
        simp [microChars, e₁],
      show microChars m₂ ++ offChars o = '.' :: (padDigits 6 m₂ ++ offChars o) by
        simp [microChars, e₂],
      lex_same_cons_iff,
      padSeg_lex_iff (lt_of_le_of_lt h₁ (by norm_num))
        (lt_of_le_of_lt h₂ (by norm_num))]
    constructor
    · rintro (h | ⟨-, h⟩)
      · exact h
      · exact absurd h (lex_irrefl _)
    · exact Or.inl

theorem isoChars_lex_iff {a b : PyDateTime} (ha : PyValid a) (hb : PyValid b)
    (hoff : a.offset = b.offset) :
    List.Lex (· < ·) (isoChars a) (isoChars b) ↔ keyLt a b := by
  obtain ⟨-, hy2a, -, hmo2a, -, hd2a, hha, hmia, hsa, hmua, -⟩ := ha
  obtain ⟨-, hy2b, -, hmo2b, -, hd2b, hhb, hmib, hsb, hmub, -⟩ := hb
  simp only [isoChars, hoff]
  rw [padSeg_lex_iff (lt_of_le_of_lt hy2a (by norm_num))
      (lt_of_le_of_lt hy2b (by norm_num)),
    lex_same_cons_iff,
    padSeg_lex_iff (lt_of_le_of_lt hmo2a (by norm_num))
      (lt_of_le_of_lt hmo2b (by norm_num)),
    lex_same_cons_iff,
    padSeg_lex_iff (lt_of_le_of_lt hd2a (by norm_num))
      (lt_of_le_of_lt hd2b (by norm_num)),
    lex_same_cons_iff,
    padSeg_lex_iff (lt_of_le_of_lt hha (by norm_num))
      (lt_of_le_of_lt hhb (by norm_num)),
    lex_same_cons_iff,
    padSeg_lex_iff (lt_of_le_of_lt hmia (by norm_num))
      (lt_of_le_of_lt hmib (by norm_num)),
    lex_same_cons_iff,
    padSeg_lex_iff (lt_of_le_of_lt hsa (by norm_num))
      (lt_of_le_of_lt hsb (by norm_num)),
    microTail_lex_iff hmua hmub]
  exact Iff.rfl

theorem isoString_lt_iff_lex (a b : PyDateTime) :
    isoString a < isoString b ↔
      List.Lex (· < ·) (isoChars a) (isoChars b) := by
  rw [String.lt_iff_toList_lt]
  exact Iff.rfl

theorem isoString_lt_iff_keyLt {a b : PyDateTime} (ha : PyValid a) (hb : PyValid b)
    (hoff : a.offset = b.offset) :
    isoString a < isoString b ↔ keyLt a b := by
  rw [isoString_lt_iff_lex]
  exact isoChars_lex_iff ha hb hoff

theorem isoLtB_eq_true_iff (a b : PyDateTime) :
    isoLtB a b = true ↔ isoString a < isoString b := by
  rw [isoString_lt_iff_lex]
  simp [isoLtB]

theorem isoLtB_eq_false_iff (a b : PyDateTime) :
    isoLtB a b = false ↔ ¬ isoString a < isoString b := by
  rw [← isoLtB_eq_true_iff]
  simp

theorem isoString_le_iff_not_keyLt {a b : PyDateTime} (ha : PyValid a)
    (hb : PyValid b) (hoff : a.offset = b.offset) :
    isoString a ≤ isoString b ↔ ¬ keyLt b a := by
  rw [← isoString_lt_iff_keyLt hb ha hoff.symm]
  exact not_lt.symm

/-! ### Characterization of `ORDER BY timestamp DESC LIMIT 1` -/

theorem selectLatest_eq_none_iff {l : List Quote} :
    selectLatest l = none ↔ l = [] := by
  cases l <;> simp [selectLatest]

theorem selectLatest_mem : ∀ {l : List Quote} {q : Quote},
    selectLatest l = some q → q ∈ l := by
  intro l
  induction l with
  | nil => intro q h; simp [selectLatest] at h
  | cons a t ih =>
      intro q h
      simp only [selectLatest] at h
      cases ht : selectLatest t with
      | none =>
          rw [ht] at h
          simp at h
          simp [h]
      | some b =>
          rw [ht] at h
          simp only [Option.some.injEq] at h
          by_cases hlt : isoLtB a.timestamp b.timestamp = true
          · rw [if_pos hlt] at h
            subst h
            exact List.mem_cons_of_mem _ (ih ht)
          · rw [if_neg hlt] at h
            simp [h]

theorem selectLatest_max : ∀ {l : List Quote} {q : Quote},
    selectLatest l = some q →
      ∀ r ∈ l, isoString r.timestamp ≤ isoString q.timestamp := by
  intro l
  induction l with
  | nil => intro q h; simp [selectLatest] at h
  | cons a t ih =>
      intro q h r hr
      simp only [selectLatest] at h
      cases ht : selectLatest t with
      | none =>
          have : t = [] := selectLatest_eq_none_iff.mp ht
          subst this
          rw [ht] at h
          simp at h
          subst h
          simp at hr
          subst hr
          exact le_refl _
      | some b =>
          rw [ht] at h
          simp only [Option.some.injEq] at h
          rcases List.mem_cons.mp hr with rfl | hrt
          · by_cases hlt : isoLtB r.timestamp b.timestamp = true
            · rw [if_pos hlt] at h
              subst h
              exact le_of_lt ((isoLtB_eq_true_iff _ _).mp hlt)
            · rw [if_neg hlt] at h
              subst h
              exact le_refl _
          · have hrb := ih ht r hrt
            by_cases hlt : isoLtB a.timestamp b.timestamp = true
            · rw [if_pos hlt] at h
              subst h
              exact hrb
            · rw [if_neg hlt] at h
              subst h
              have hnl : ¬ isoString a.timestamp < isoString b.timestamp :=
                (isoLtB_eq_false_iff _ _).mp (Bool.not_eq_true _ ▸ eq_false_of_ne_true hlt)
              exact le_trans hrb (not_lt.mp hnl)

theorem selectLatest_isSome {l : List Quote} (h : l ≠ []) :
    ∃ q, selectLatest l = some q := by
  cases hl : selectLatest l with
  | none => exact absurd (selectLatest_eq_none_iff.mp hl) h
  | some q => exact ⟨q, rfl⟩

/-- Characterization of `get_quote _ _ none` (the latest-quote query). -/
theorem get_quote_latest_some {db : QuoteDb} {s : String} {q : Quote}
    (h : get_quote db s none = some q) :
    q ∈ db ∧ q.symbol = s ∧
      ∀ r ∈ db, r.symbol = s → isoString r.timestamp ≤ isoString q.timestamp := by
  simp only [get_quote] at h
  have hmem := selectLatest_mem h
  rw [List.mem_filter] at hmem
  refine ⟨hmem.1, by simpa using hmem.2, ?_⟩
  intro r hr hrs
  exact selectLatest_max h r (List.mem_filter.mpr ⟨hr, by simpa using hrs⟩)

theorem get_quote_latest_eq_none_iff {db : QuoteDb} {s : String} :
    get_quote db s none = none ↔ ∀ r ∈ db, r.symbol ≠ s := by
  simp only [get_quote, selectLatest_eq_none_iff, List.filter_eq_nil_iff]
  constructor
  · intro h r hr
    simpa using h r hr
  · intro h r hr
    simpa using h r hr

/-- Any row returned by `get_quote` is a stored row for the symbol. -/
theorem get_quote_mem {db : QuoteDb} {s : String} {ts : Option PyDateTime} {q : Quote}
    (h : get_quote db s ts = some q) : q ∈ db ∧ q.symbol = s := by
  cases ts with
  | none =>
      have := get_quote_latest_some h
      exact ⟨this.1, this.2.1⟩
  | some t =>
      simp only [get_quote, get_quote_closest_timestamp] at h
      have hmem := selectLatest_mem h
      rw [List.mem_filter, Bool.and_eq_true] at hmem
      exact ⟨hmem.1, by simpa using hmem.2.1⟩

/-! ### The same-day TEXT window -/

theorem day_start_valid {t : PyDateTime} (h : PyValid t) : PyValid (day_start t) := by
  obtain ⟨h1, h2, h3, h4, h5, h6, -, -, -, -, h11⟩ := h
  refine ⟨h1, h2, h3, h4, h5, h6, ?_, ?_, ?_, ?_, h11⟩ <;> simp [day_start]

theorem day_end_valid {t : PyDateTime} (h : PyValid t) : PyValid (day_end t) := by
  obtain ⟨h1, h2, h3, h4, h5, h6, -, -, -, -, h11⟩ := h
  refine ⟨h1, h2, h3, h4, h5, h6, ?_, ?_, ?_, ?_, h11⟩ <;> simp [day_end]

/-- With every timestamp carrying `t`'s own UTC-offset representation, the
TEXT window of `get_quote_closest_timestamp` holds exactly the rows on
`t`'s calendar date. -/
theorem inDayWindow_iff_sameDate {t ts : PyDateTime} (hvt : PyValid t)
    (hvts : PyValid ts) (hoff : ts.offset = t.offset) :
    inDayWindow t ts = true ↔ sameDate ts t := by
  have hmu : ts.microsecond ≤ 999999 := hvts.2.2.2.2.2.2.2.2.2.1
  have hs : ts.second ≤ 59 := hvts.2.2.2.2.2.2.2.2.1
  have hmi : ts.minute ≤ 59 := hvts.2.2.2.2.2.2.2.1
  have hh : ts.hour ≤ 23 := hvts.2.2.2.2.2.2.1
  simp only [inDayWindow, Bool.and_eq_true, Bool.not_eq_true', isoLtB_eq_false_iff]
  rw [isoString_lt_iff_keyLt hvts (day_start_valid hvt) (by simpa [day_start] using hoff),
    isoString_lt_iff_keyLt (day_end_valid hvt) hvts (by simpa [day_end] using hoff.symm)]
  simp only [keyLt, day_start, day_end, sameDate]
  omega

/-! ### Characterization of the base-currency suffix search -/

theorem strTakeRight_data (s : String) (n : Nat) :
    (strTakeRight s n).data = s.data.drop (s.data.length - n) := rfl

theorem strTakeRight_length {s : String} {n : Nat} (h : n ≤ s.length) :
    (strTakeRight s n).data.length = n := by
  rw [strTakeRight_data, List.length_drop]
  have : s.length = s.data.length := rfl
  omega

theorem pyEndsWith_iff_takeRight {f t : String} {L : Nat} (hf : L ≤ f.length)
    (_ht : L ≤ t.length) :
    pyEndsWith t (strTakeRight f L) = true ↔
      strTakeRight f L = strTakeRight t L := by
  have hlenf : (strTakeRight f L).data.length = L := strTakeRight_length hf
  have htlen : t.length = t.data.length := rfl
  unfold pyEndsWith
  rw [List.isSuffixOf_iff_suffix, List.suffix_iff_eq_drop, hlenf]
  constructor
  · intro h
    have : (strTakeRight f L).data = (strTakeRight t L).data := by
      rw [strTakeRight_data t L]
      exact h
    exact congrArg String.mk this
  · intro h
    rw [show (strTakeRight f L).data = (strTakeRight t L).data from congrArg String.data h,
      strTakeRight_data t L]

theorem validate_same_base_eq_none_iff (f t : String) :
    validate_same_base_currencies f t = none ↔
      ∃ L, 3 ≤ L ∧ L ≤ min f.length t.length - 2 ∧
        strTakeRight f L = strTakeRight t L := by
  have step1 : validate_same_base_currencies f t = none ↔
      ∃ L ∈ List.range' 3 (min f.length t.length - 4),
        pyEndsWith t (strTakeRight f L) = true := by
    unfold validate_same_base_currencies
    cases hfind : (List.range' 3 (min f.length t.length - 4)).reverse.find?
        (fun base_length => pyEndsWith t (strTakeRight f base_length)) with
    | none =>
        simp only [hfind]
        constructor
        · intro h
          exact absurd h (by simp)
        · rintro ⟨L, hL, hp⟩
          have := List.find?_eq_none.mp hfind L (List.mem_reverse.mpr hL)
          simp [hp] at this
    | some L =>
        simp only [hfind]
        constructor
        · intro _
          refine ⟨L, List.mem_reverse.mp (List.mem_of_find?_eq_some hfind), ?_⟩
          have hp := List.find?_some hfind
          simpa using hp
        · intro _
          trivial
  rw [step1]
  constructor
  · rintro ⟨L, hL, hp⟩
    rw [List.mem_range'_1] at hL
    have hLf : L ≤ f.length := by omega
    have hLt : L ≤ t.length := by omega
    exact ⟨L, by omega, by omega, (pyEndsWith_iff_takeRight hLf hLt).mp hp⟩
  · rintro ⟨L, h3, h2, heq⟩
    refine ⟨L, ?_, ?_⟩
    · rw [List.mem_range'_1]
      omega
    · exact (pyEndsWith_iff_takeRight (by omega) (by omega)).mpr heq

theorem validate_same_base_eq_some_iff (f t : String) (msg : String) :
    validate_same_base_currencies f t = some msg →
      msg = crossCurrencyMessage f t := by
  have hdef : validate_same_base_currencies f t =
      (match (List.range' 3 (min f.length t.length - 4)).reverse.find?
          (fun base_length => pyEndsWith t (strTakeRight f base_length)) with
        | some _ => none
        | none => some (crossCurrencyMessage f t)) := rfl
  rw [hdef]
  cases hfind : (List.range' 3 (min f.length t.length - 4)).reverse.find?
      (fun base_length => pyEndsWith t (strTakeRight f base_length)) with
  | none =>
      intro h
      simpa using h.symm
  | some L =>
      intro h
      simp at h

/-! ### Claim theorems -/

/-- C3: for every pair of symbols, the base-currency compatibility check
(`validate_same_base_currencies`) succeeds if and only if the symbols share
a common suffix of some length `L` with `3 ≤ L ≤ min(len) − 2` (the
candidate lengths `range(min_length - 2, 2, -1)` are tried longest first,
returning on the first match, which is observationally the same set); when
no such suffix exists it raises `UnsupportedConversionError` whose message
names both symbols. -/
theorem base_check_iff_shared_suffix (f t : String) :
    (validate_same_base_currencies f t = none ↔
      ∃ L, 3 ≤ L ∧ L ≤ min f.length t.length - 2 ∧
        strTakeRight f L = strTakeRight t L) ∧
    ∀ msg, validate_same_base_currencies f t = some msg →
      msg = "Cross-currency conversion from " ++ f ++ " to " ++ t ++
        " is not supported. Both currencies must share the same base currency." := by
  refine ⟨validate_same_base_eq_none_iff f t, ?_⟩
  intro msg h
  exact validate_same_base_eq_some_iff f t msg h

/-- Witness for C3 at concrete inputs: "BTCUSDT"/"ETHUSDT" (shared suffix
"USDT") passes, and "BTCUSDT"/"LTCETH" (no shared suffix of length ≥ 3)
produces the message naming both symbols. -/
theorem base_check_iff_shared_suffix_witness :
    validate_same_base_currencies "BTCUSDT" "ETHUSDT" = none ∧
      crossCurrencyMessage "BTCUSDT" "LTCETH" =
        "Cross-currency conversion from BTCUSDT to LTCETH is not supported. " ++
          "Both currencies must share the same base currency." := by
  constructor
  · exact (base_check_iff_shared_suffix "BTCUSDT" "ETHUSDT").1.mpr
      ⟨4, by decide, by decide, by decide⟩
  · exact (base_check_iff_shared_suffix "BTCUSDT" "LTCETH").2
      (crossCurrencyMessage "BTCUSDT" "LTCETH") (by decide)

/-- C2 counterexample: the pair ("BTC", "BTC") is a pair of identical
symbols (sharing the common suffix "BTC" of length 3), yet
`validate_same_base_currencies` raises `UnsupportedConversionError`
(the candidate range `range(min_length - 2, 2, -1) = range(1, 2, -1)` is
empty).  Separately, the check actually wired into the `/convert` endpoint
(`_is_direct_pair`) also rejects the pair ("ABCXYZ", "DEFXYZ") although it
shares the 3-character suffix "XYZ". -/
theorem identical_short_pair_fails_base_check :
    pyEndsWith "BTC" "BTC" = true ∧ ("BTC" : String).length = 3 ∧
      validate_same_base_currencies "BTC" "BTC" ≠ none ∧
      strTakeRight "ABCXYZ" 3 = strTakeRight "DEFXYZ" 3 ∧
      is_direct_pair "ABCXYZ" "DEFXYZ" = false := by
  refine ⟨by decide, by decide, by decide, by decide, by decide⟩

/-- C2 (amended): every pair sharing a common suffix of length `L` with
`3 ≤ L ≤ min(len) − 2` passes the base-currency check — in particular
every pair of identical symbols of length at least 5 (identical symbols of
length 3 or 4 fail, because at least 3 characters must remain as the
non-base part on each side). -/
theorem shared_bounded_suffix_passes_base_check :
    (∀ (f t : String) (L : Nat), 3 ≤ L → L ≤ min f.length t.length - 2 →
      strTakeRight f L = strTakeRight t L →
      validate_same_base_currencies f t = none) ∧
    ∀ s : String, 5 ≤ s.length → validate_same_base_currencies s s = none := by
  constructor
  · intro f t L h3 h2 he
    exact (validate_same_base_eq_none_iff f t).mpr ⟨L, h3, h2, he⟩
  · intro s h5
    exact (validate_same_base_eq_none_iff s s).mpr ⟨3, le_refl 3, by omega, rfl⟩

/-- Witness for the amended C2 at concrete inputs. -/
theorem shared_bounded_suffix_passes_base_check_witness :
    validate_same_base_currencies "ETHBTC" "ADABTC" = none ∧
      validate_same_base_currencies "BTCUSDT" "BTCUSDT" = none := by
  constructor
  · exact shared_bounded_suffix_passes_base_check.1 "ETHBTC" "ADABTC" 3
      (by decide) (by decide) (by decide)
  · exact shared_bounded_suffix_passes_base_check.2 "BTCUSDT" (by decide)

/-- C9: flushing the ingester's buffer always leaves the buffer empty
(the buffer is copied and cleared before the save is awaited), persists the
copied batch exactly when the save succeeds, and drops it (without
restoring or retrying) when the save raises; consequently a batch is
handed to `save_quotes` at most once — quotes buffered after a failed
flush are saved without the dropped batch reappearing. -/
theorem flush_clears_buffer_and_saves_at_most_once :
    ∀ (st : ConsumerState) (saveOk : Bool),
      (flush_quotes_buffer st saveOk).quotes_buffer = [] ∧
      (flush_quotes_buffer st saveOk).db =
        (if saveOk then st.db ++ st.quotes_buffer else st.db) ∧
      ∀ (qs : List Quote) (ok₂ : Bool),
        (flush_quotes_buffer
          { quotes_buffer := (flush_quotes_buffer st false).quotes_buffer ++ qs,
            db := (flush_quotes_buffer st false).db } ok₂).db =
          (if ok₂ then st.db ++ qs else st.db) := by
  intro st saveOk
  refine ⟨?_, ?_, ?_⟩
  · by_cases hb : st.quotes_buffer = [] <;>
      simp [flush_quotes_buffer, hb]
  · by_cases hb : st.quotes_buffer = [] <;>
      by_cases hok : saveOk <;>
      simp [flush_quotes_buffer, save_quotes, hb, hok]
  · intro qs ok₂
    by_cases hb : st.quotes_buffer = [] <;>
      by_cases hq : qs = [] <;>
      by_cases hok : ok₂ <;>
      simp [flush_quotes_buffer, save_quotes, hb, hq, hok]

/-- C10: at the conversion endpoint's interface an empty-string timestamp
parameter behaves like an absent one (`validate_timestamp` maps both
`None` and `""` to `None`, and `convert_currency` skips parsing for a
falsy timestamp), triggering a live conversion rather than
`InvalidTimestampError`; and a string whose trailing `Z` makes it parse
after the `"Z" → "+00:00"` rewrite is accepted with the parsed value. -/
theorem empty_timestamp_live_and_z_rewritten :
    validate_timestamp TsParam.null = Except.ok none ∧
    validate_timestamp (TsParam.str "") = Except.ok none ∧
    endpoint_parse_timestamp none = Except.ok none ∧
    endpoint_parse_timestamp (some "") = Except.ok none ∧
    ∀ s d, fromisoformat (pyReplaceZ s) = some d →
      validate_timestamp (TsParam.str s) = Except.ok (some d) ∧
      endpoint_parse_timestamp (some s) = Except.ok (some d) := by
  refine ⟨rfl, rfl, rfl, rfl, ?_⟩
  intro s d h
  by_cases hs : s = ""
  · subst hs
    rw [show fromisoformat (pyReplaceZ "") = none from rfl] at h
    cases h
  · constructor <;> simp [validate_timestamp, endpoint_parse_timestamp, hs, h]

/-- Witness for C10: the ISO string "2023-01-01T12:00:00Z" is accepted,
parsing to noon 2023-01-01 UTC. -/
theorem empty_timestamp_live_and_z_rewritten_witness :
    validate_timestamp (TsParam.str "2023-01-01T12:00:00Z") =
      Except.ok (some ⟨2023, 1, 1, 12, 0, 0, 0, some 0⟩) ∧
    endpoint_parse_timestamp (some "2023-01-01T12:00:00Z") =
      Except.ok (some ⟨2023, 1, 1, 12, 0, 0, 0, some 0⟩) :=
  empty_timestamp_live_and_z_rewritten.2.2.2.2 "2023-01-01T12:00:00Z"
    ⟨2023, 1, 1, 12, 0, 0, 0, some 0⟩ (by decide)

/-- C4: given quotes resolve for both symbols, `get_conversion_rate`
returns the `Outdated` result variant (an error code and message, not an
exception and not a rate) if and only if no timestamp was supplied and at
least one of the two quotes is expired — strictly older than 60 seconds
relative to the current wall-clock instant, naive timestamps being read as
UTC (which is what `is_quote_expired`'s `replace(tzinfo=UTC)` and
`instantUs` encode); with a supplied timestamp no freshness check is
applied. -/
theorem outdated_iff_stale_live_quotes :
    ∀ (db : QuoteDb) (f t : String) (timestamp : Option PyDateTime)
      (nowUs : Int) (fq tq : Quote),
      get_quote db f timestamp = some fq →
      get_quote db t timestamp = some tq →
      ((get_conversion_rate db f t timestamp nowUs =
          RateResult.outdated ERROR_QUOTES_OUTDATED
            "Quotes are older than 60 seconds") ↔
        timestamp = none ∧
          (is_quote_expired nowUs fq = true ∨ is_quote_expired nowUs tq = true)) ∧
      (∀ e m, get_conversion_rate db f t timestamp nowUs = RateResult.outdated e m →
        e = ERROR_QUOTES_OUTDATED ∧ m = "Quotes are older than 60 seconds") ∧
      (is_quote_expired nowUs fq = true ↔
        (QUOTE_FRESHNESS_SECONDS : Int) * 1000000 < nowUs - instantUs fq.timestamp) := by
  intro db f t timestamp nowUs fq tq hf ht
  have hdef : get_conversion_rate db f t timestamp nowUs =
      (if timestamp.isNone &&
          (is_quote_expired nowUs fq || is_quote_expired nowUs tq) then
        RateResult.outdated ERROR_QUOTES_OUTDATED "Quotes are older than 60 seconds"
      else RateResult.ok (fq.price / tq.price) fq tq) := by
    unfold get_conversion_rate
    rw [hf, ht]
  refine ⟨?_, ?_, ?_⟩
  · rw [hdef]
    by_cases hc : (timestamp.isNone &&
        (is_quote_expired nowUs fq || is_quote_expired nowUs tq)) = true
    · rw [if_pos hc]
      simp only [true_iff]
      simpa [Option.isNone_iff_eq_none] using hc
    · rw [if_neg hc]
      constructor
      · intro h
        exact absurd h (by simp)
      · intro ⟨h1, h2⟩
        exact absurd (by simp [h1, h2] : _ = true) hc
  · intro e m
    rw [hdef]
    by_cases hc : (timestamp.isNone &&
        (is_quote_expired nowUs fq || is_quote_expired nowUs tq)) = true
    · rw [if_pos hc]
      intro h
      cases h
      exact ⟨rfl, rfl⟩
    · rw [if_neg hc]
      intro h
      exact absurd h (by simp)
  · simp [is_quote_expired]

/-- Witness for C4: with both quotes timestamped 2 minutes before `now`
and no timestamp requested, the result is the `Outdated` variant. -/
theorem outdated_iff_stale_live_quotes_witness :
    get_conversion_rate
        [⟨"BTCUSDT", 45000, ⟨2023, 1, 1, 12, 0, 0, 0, some 0⟩⟩,
         ⟨"ETHUSDT", 3000, ⟨2023, 1, 1, 12, 0, 0, 0, some 0⟩⟩]
        "BTCUSDT" "ETHUSDT" none
        (instantUs ⟨2023, 1, 1, 12, 2, 0, 0, some 0⟩) =
      RateResult.outdated ERROR_QUOTES_OUTDATED
        "Quotes are older than 60 seconds" :=
  ((outdated_iff_stale_live_quotes
      [⟨"BTCUSDT", 45000, ⟨2023, 1, 1, 12, 0, 0, 0, some 0⟩⟩,
       ⟨"ETHUSDT", 3000, ⟨2023, 1, 1, 12, 0, 0, 0, some 0⟩⟩]
      "BTCUSDT" "ETHUSDT" none (instantUs ⟨2023, 1, 1, 12, 2, 0, 0, some 0⟩)
      ⟨"BTCUSDT", 45000, ⟨2023, 1, 1, 12, 0, 0, 0, some 0⟩⟩
      ⟨"ETHUSDT", 3000, ⟨2023, 1, 1, 12, 0, 0, 0, some 0⟩⟩
      (by decide) (by decide)).1).mpr ⟨rfl, Or.inl (by decide)⟩

/-- C6: price positivity is enforced before insertion — pydantic quote
construction and the feed parser only ever produce strictly positive
prices, `save_quotes` preserves an all-positive store, and on an
all-positive store the division `from_quote.price / to_quote.price` in
`get_conversion_rate` never divides by zero. -/
theorem stored_prices_positive_no_div_by_zero :
    (∀ s p ts q, pydanticQuote s p ts = some q → 0 < q.price) ∧
    (∀ e ts q, parse_binance_rest_ticker e ts = some q → 0 < q.price) ∧
    (∀ (db : QuoteDb) (quotes : List Quote),
      (∀ r ∈ db, 0 < r.price) → (∀ q ∈ quotes, 0 < q.price) →
      ∀ r ∈ save_quotes db quotes, 0 < r.price) ∧
    (∀ (db : QuoteDb) (f t : String) (ts : Option PyDateTime) (nowUs : Int)
        (rate : ℚ) (fq tq : Quote),
      (∀ r ∈ db, 0 < r.price) →
      get_conversion_rate db f t ts nowUs = RateResult.ok rate fq tq →
      tq.price ≠ 0 ∧ 0 < fq.price ∧ rate = fq.price / tq.price) := by
  have hpyd : ∀ s p ts q, pydanticQuote s p ts = some q → 0 < q.price := by
    intro s p ts q h
    unfold pydanticQuote at h
    by_cases hp : 0 < p
    · rw [if_pos hp] at h
      cases h
      exact hp
    · rw [if_neg hp] at h
      cases h
  refine ⟨hpyd, ?_, ?_, ?_⟩
  · intro e ts q h
    obtain ⟨esym, eprice⟩ := e
    cases esym with
    | none => cases h
    | some sym =>
        cases eprice with
        | none => cases h
        | some raw =>
            simp only [parse_binance_rest_ticker] at h
            cases hf : pyFloat raw with
            | none => rw [hf] at h; cases h
            | some v =>
                rw [hf] at h
                dsimp only at h
                by_cases hcond : pyUpper sym ≠ "" ∧ 0 < v
                · rw [if_pos hcond] at h
                  exact hpyd _ _ _ _ h
                · rw [if_neg hcond] at h
                  cases h
  · intro db quotes hdb hq r hr
    rcases List.mem_append.mp hr with h | h
    · exact hdb r h
    · exact hq r h
  · intro db f t ts nowUs rate fq tq hdb h
    unfold get_conversion_rate at h
    cases hf : get_quote db f ts with
    | none => rw [hf] at h; cases hq : get_quote db t ts <;> rw [hq] at h <;> cases h
    | some fq' =>
        cases hq : get_quote db t ts with
        | none => rw [hf, hq] at h; cases h
        | some tq' =>
            rw [hf, hq] at h
            dsimp only at h
            by_cases hc : (ts.isNone &&
                (is_quote_expired nowUs fq' || is_quote_expired nowUs tq')) = true
            · rw [if_pos hc] at h
              cases h
            · rw [if_neg hc] at h
              cases h
              have htq : 0 < tq.price := hdb tq (get_quote_mem hq).1
              have hfq : 0 < fq.price := hdb fq (get_quote_mem hf).1
              exact ⟨ne_of_gt htq, hfq, rfl⟩

/-- Witness for C6: a concrete all-positive store yields rate
45000 / 3000 = 15 with a non-zero divisor. -/
theorem stored_prices_positive_no_div_by_zero_witness :
    (⟨"ETHUSDT", 3000, ⟨2023, 1, 1, 12, 0, 0, 0, some 0⟩⟩ : Quote).price ≠ 0 ∧
      (0 : ℚ) < (⟨"BTCUSDT", 45000, ⟨2023, 1, 1, 12, 0, 0, 0, some 0⟩⟩ : Quote).price ∧
      ((45000 : ℚ) / 3000) =
        (⟨"BTCUSDT", 45000, ⟨2023, 1, 1, 12, 0, 0, 0, some 0⟩⟩ : Quote).price /
          (⟨"ETHUSDT", 3000, ⟨2023, 1, 1, 12, 0, 0, 0, some 0⟩⟩ : Quote).price :=
  stored_prices_positive_no_div_by_zero.2.2.2
    [⟨"BTCUSDT", 45000, ⟨2023, 1, 1, 12, 0, 0, 0, some 0⟩⟩,
     ⟨"ETHUSDT", 3000, ⟨2023, 1, 1, 12, 0, 0, 0, some 0⟩⟩]
    "BTCUSDT" "ETHUSDT" none (instantUs ⟨2023, 1, 1, 12, 0, 30, 0, some 0⟩)
    ((45000 : ℚ) / 3000)
    ⟨"BTCUSDT", 45000, ⟨2023, 1, 1, 12, 0, 0, 0, some 0⟩⟩
    ⟨"ETHUSDT", 3000, ⟨2023, 1, 1, 12, 0, 0, 0, some 0⟩⟩
    (by
      intro r hr
      rcases List.mem_cons.mp hr with rfl | hr
      · decide
      · rcases List.mem_cons.mp hr with rfl | hr
        · decide
        · cases hr)
    rfl

/-- C8: parsing a polling batch keeps exactly the well-formed entries —
symbol present with non-empty uppercased value, price present, parseable
and strictly positive — each as a `Quote` stamped with the batch's
observation time (the symbol additionally whitespace-stripped by the
pydantic model); and a malformed entry is dropped individually, leaving
the parsing of the entries before and after it unchanged. -/
theorem batch_parse_keeps_wellformed_drops_malformed :
    (∀ (e : TickerEntry) (ts : PyDateTime) (q : Quote),
      parse_binance_rest_ticker e ts = some q ↔
        ∃ sym raw v, e.symbol = some sym ∧ e.price = some raw ∧
          pyFloat raw = some v ∧ pyUpper sym ≠ "" ∧ 0 < v ∧
          q = ⟨(pyUpper sym).trim, v, ts⟩) ∧
    ∀ (pre post : List TickerEntry) (bad : TickerEntry) (ts : PyDateTime),
      parse_binance_rest_ticker bad ts = none →
      fetch_quotes_parse (pre ++ bad :: post) ts =
        fetch_quotes_parse pre ts ++ fetch_quotes_parse post ts := by
  constructor
  · intro e ts q
    obtain ⟨esym, eprice⟩ := e
    constructor
    · intro h
      cases esym with
      | none => cases h
      | some sym =>
          cases eprice with
          | none => cases h
          | some raw =>
              simp only [parse_binance_rest_ticker] at h
              cases hf : pyFloat raw with
              | none => rw [hf] at h; cases h
              | some v =>
                  rw [hf] at h
                  dsimp only at h
                  by_cases hcond : pyUpper sym ≠ "" ∧ 0 < v
                  · rw [if_pos hcond] at h
                    unfold pydanticQuote at h
                    rw [if_pos hcond.2] at h
                    cases h
                    exact ⟨sym, raw, v, rfl, rfl, hf, hcond.1, hcond.2, rfl⟩
                  · rw [if_neg hcond] at h
                    cases h
    · rintro ⟨sym, raw, v, hsym, hraw, hf, hne, hv, rfl⟩
      cases hsym
      cases hraw
      simp only [parse_binance_rest_ticker, hf, pydanticQuote]
      rw [if_pos ⟨hne, hv⟩, if_pos hv]
  · intro pre post bad ts hbad
    simp [fetch_quotes_parse, List.filterMap_append, List.filterMap_cons, hbad]

/-- Witness for C8: in a batch of three entries where the middle one has
an unparseable price, exactly the outer two are kept, in order. -/
theorem batch_parse_witness :
    fetch_quotes_parse
        [⟨some "btcusdt", some "45000.5"⟩, ⟨some "X", some "abc"⟩,
         ⟨some "ETHUSDT", some "3000"⟩] ⟨2023, 1, 1, 0, 0, 0, 0, some 0⟩ =
      fetch_quotes_parse [⟨some "btcusdt", some "45000.5"⟩]
          ⟨2023, 1, 1, 0, 0, 0, 0, some 0⟩ ++
        fetch_quotes_parse [⟨some "ETHUSDT", some "3000"⟩]
          ⟨2023, 1, 1, 0, 0, 0, 0, some 0⟩ :=
  batch_parse_keeps_wellformed_drops_malformed.2
    [⟨some "btcusdt", some "45000.5"⟩] [⟨some "ETHUSDT", some "3000"⟩]
    ⟨some "X", some "abc"⟩ ⟨2023, 1, 1, 0, 0, 0, 0, some 0⟩ (by decide)

/-- C1 counterexample: the store holds a single "BTCUSDT" quote stamped
2023-01-01T00:30:00+05:00, whose instant falls on the UTC calendar day
2022-12-31; for the naive target 2023-01-01T12:00:00 (whose day, read as
UTC/naive per the claim, is 2023-01-01) the claim demands `absent`, yet
the TEXT-window lookup returns that quote, because SQLite compares the
ISO strings lexicographically and ignores the `+05:00` suffix. -/
theorem same_day_lookup_counterexample :
    get_quote_closest_timestamp
        [⟨"BTCUSDT", 1, ⟨2023, 1, 1, 0, 30, 0, 0, some 300⟩⟩] "BTCUSDT"
        ⟨2023, 1, 1, 12, 0, 0, 0, none⟩ =
      some ⟨"BTCUSDT", 1, ⟨2023, 1, 1, 0, 30, 0, 0, some 300⟩⟩ ∧
      utcDayIndex ⟨2023, 1, 1, 0, 30, 0, 0, some 300⟩ ≠
        utcDayIndex ⟨2023, 1, 1, 12, 0, 0, 0, none⟩ := by
  exact ⟨by decide, by decide⟩

/-- C1 (amended): `get_quote_closest_timestamp` selects, among the
symbol's rows whose ISO-timestamp TEXT lies lexicographically in the
inclusive window `[day_start.isoformat(), day_end.isoformat()]` of the
target's calendar date (with the target's own offset attached), a row
with lexicographically maximal timestamp TEXT, and returns absent iff no
row lies in that window; whenever every stored timestamp for the symbol
carries the same UTC offset representation as the target, this is exactly
the claim's behaviour — the rows considered are precisely those on the
target's calendar date, the returned row is the calendar-chronologically
latest of them, and the result is absent iff the symbol has no quote on
that date. -/
theorem same_day_lookup_characterization :
    ∀ (db : QuoteDb) (symbol : String) (t : PyDateTime),
      (∀ q, get_quote_closest_timestamp db symbol t = some q →
        q ∈ db ∧ q.symbol = symbol ∧ inDayWindow t q.timestamp = true ∧
        ∀ r ∈ db, r.symbol = symbol → inDayWindow t r.timestamp = true →
          isoString r.timestamp ≤ isoString q.timestamp) ∧
      (get_quote_closest_timestamp db symbol t = none ↔
        ∀ r ∈ db, r.symbol = symbol → inDayWindow t r.timestamp = false) ∧
      (PyValid t → (∀ r ∈ db, PyValid r.timestamp ∧ r.timestamp.offset = t.offset) →
        (∀ q, get_quote_closest_timestamp db symbol t = some q →
          sameDate q.timestamp t ∧
          ∀ r ∈ db, r.symbol = symbol → sameDate r.timestamp t →
            ¬ keyLt q.timestamp r.timestamp) ∧
        (get_quote_closest_timestamp db symbol t = none ↔
          ∀ r ∈ db, r.symbol = symbol → ¬ sameDate r.timestamp t)) := by
  intro db symbol t
  have hsome : ∀ q, get_quote_closest_timestamp db symbol t = some q →
      q ∈ db ∧ q.symbol = symbol ∧ inDayWindow t q.timestamp = true ∧
      ∀ r ∈ db, r.symbol = symbol → inDayWindow t r.timestamp = true →
        isoString r.timestamp ≤ isoString q.timestamp := by
    intro q h
    simp only [get_quote_closest_timestamp] at h
    have hmem := selectLatest_mem h
    rw [List.mem_filter, Bool.and_eq_true] at hmem
    refine ⟨hmem.1, by simpa using hmem.2.1, hmem.2.2, ?_⟩
    intro r hr hrs hrw
    exact selectLatest_max h r (List.mem_filter.mpr ⟨hr, by simp [hrs, hrw]⟩)
  have hnone : get_quote_closest_timestamp db symbol t = none ↔
      ∀ r ∈ db, r.symbol = symbol → inDayWindow t r.timestamp = false := by
    simp only [get_quote_closest_timestamp, selectLatest_eq_none_iff,
      List.filter_eq_nil_iff]
    constructor
    · intro h r hr hrs
      have h' := h r hr
      rw [Bool.and_eq_true] at h'
      rcases Bool.eq_false_or_eq_true (inDayWindow t r.timestamp) with htr | hf
      · exact absurd ⟨by simpa using hrs, htr⟩ h'
      · exact hf
    · intro h r hr
      rw [Bool.and_eq_true]
      rintro ⟨hbs, hw⟩
      rw [h r hr (by simpa using hbs)] at hw
      cases hw
  refine ⟨hsome, hnone, ?_⟩
  intro hvt hdb
  have hwin : ∀ r ∈ db, (inDayWindow t r.timestamp = true ↔ sameDate r.timestamp t) :=
    fun r hr => inDayWindow_iff_sameDate hvt (hdb r hr).1 (hdb r hr).2
  constructor
  · intro q hq
    obtain ⟨hqdb, hqs, hqw, hmax⟩ := hsome q hq
    refine ⟨(hwin q hqdb).mp hqw, ?_⟩
    intro r hr hrs hrsame
    have hle := hmax r hr hrs ((hwin r hr).mpr hrsame)
    exact (isoString_le_iff_not_keyLt (hdb r hr).1 (hdb q hqdb).1
      ((hdb r hr).2.trans (hdb q hqdb).2.symm)).mp hle
  · rw [hnone]
    constructor
    · intro h r hr hrs hsame
      have hfalse := h r hr hrs
      have htrue := (hwin r hr).mpr hsame
      rw [hfalse] at htrue
      cases htrue
    · intro h r hr hrs
      rw [Bool.eq_false_iff]
      intro hw
      exact h r hr hrs ((hwin r hr).mp hw)

/-- Witness for the amended C1: with two same-day UTC quotes at 09:00 and
10:00 and target time 22:00 (later than both), the 10:00 quote is
returned: it lies on the target's date and no same-day quote is
calendar-later. -/
theorem same_day_lookup_witness :
    sameDate (⟨2023, 1, 1, 10, 0, 0, 0, some 0⟩ : PyDateTime)
        ⟨2023, 1, 1, 22, 0, 0, 0, some 0⟩ ∧
      ¬ keyLt (⟨2023, 1, 1, 10, 0, 0, 0, some 0⟩ : PyDateTime)
        ⟨2023, 1, 1, 9, 0, 0, 0, some 0⟩ := by
  have h := ((same_day_lookup_characterization
      [⟨"BTCUSDT", 1, ⟨2023, 1, 1, 9, 0, 0, 0, some 0⟩⟩,
       ⟨"BTCUSDT", 2, ⟨2023, 1, 1, 10, 0, 0, 0, some 0⟩⟩]
      "BTCUSDT" ⟨2023, 1, 1, 22, 0, 0, 0, some 0⟩).2.2 (by decide) (by decide)).1
    ⟨"BTCUSDT", 2, ⟨2023, 1, 1, 10, 0, 0, 0, some 0⟩⟩ (by decide)
  exact ⟨h.1, h.2 ⟨"BTCUSDT", 1, ⟨2023, 1, 1, 9, 0, 0, 0, some 0⟩⟩
    (by decide) (by decide) (by decide)⟩

/-- C5 counterexample: an empty store receives a two-quote batch for
symbol "X": one stamped 2023-01-01T23:00:00+05:00 (18:00 UTC) and one
stamped 2023-01-01T20:00:00+00:00 (20:00 UTC, the chronologically maximal
timestamp of the batch).  `getLatestQuote` returns the former — the
lexicographically larger ISO TEXT — although its timestamp is strictly
earlier, so the round-trip does not return the maximum-timestamp row. -/
theorem latest_quote_counterexample :
    get_quote
        (save_quotes []
          [⟨"X", 1, ⟨2023, 1, 1, 23, 0, 0, 0, some 300⟩⟩,
           ⟨"X", 2, ⟨2023, 1, 1, 20, 0, 0, 0, some 0⟩⟩]) "X" none =
      some ⟨"X", 1, ⟨2023, 1, 1, 23, 0, 0, 0, some 300⟩⟩ ∧
      instantUs ⟨2023, 1, 1, 23, 0, 0, 0, some 300⟩ <
        instantUs ⟨2023, 1, 1, 20, 0, 0, 0, some 0⟩ := by
  exact ⟨by decide, by decide⟩

/-- C5 (amended): `getLatestQuote` returns absent iff the symbol has no
stored row, and otherwise some stored row of that symbol whose
ISO-timestamp TEXT is lexicographically maximal; consequently, saving a
batch into an empty store and querying a symbol of the batch returns a
batch row of that symbol that is TEXT-maximal — and when the batch's
timestamps all share one UTC offset representation, that row is the
calendar-chronologically maximal row for the symbol, as the original
claim states. -/
theorem latest_quote_roundtrip :
    (∀ (db : QuoteDb) (symbol : String),
      (get_quote db symbol none = none ↔ ∀ r ∈ db, r.symbol ≠ symbol) ∧
      (∀ q, get_quote db symbol none = some q →
        q ∈ db ∧ q.symbol = symbol ∧
        ∀ r ∈ db, r.symbol = symbol →
          isoString r.timestamp ≤ isoString q.timestamp)) ∧
    ∀ (batch : List Quote) (symbol : String) (q₀ : Quote),
      q₀ ∈ batch → q₀.symbol = symbol →
      ∃ q, get_quote (save_quotes [] batch) symbol none = some q ∧
        q ∈ batch ∧ q.symbol = symbol ∧
        (∀ r ∈ batch, r.symbol = symbol →
          isoString r.timestamp ≤ isoString q.timestamp) ∧
        ((∀ r ∈ batch, PyValid r.timestamp) →
          (∀ r ∈ batch, r.timestamp.offset = q.timestamp.offset) →
          ∀ r ∈ batch, r.symbol = symbol → ¬ keyLt q.timestamp r.timestamp) := by
  have hgen : ∀ (db : QuoteDb) (symbol : String),
      (get_quote db symbol none = none ↔ ∀ r ∈ db, r.symbol ≠ symbol) ∧
      (∀ q, get_quote db symbol none = some q →
        q ∈ db ∧ q.symbol = symbol ∧
        ∀ r ∈ db, r.symbol = symbol →
          isoString r.timestamp ≤ isoString q.timestamp) := by
    intro db symbol
    exact ⟨get_quote_latest_eq_none_iff, fun q h => get_quote_latest_some h⟩
  refine ⟨hgen, ?_⟩
  intro batch symbol q₀ hq₀ hq₀s
  have hdb : save_quotes [] batch = batch := List.nil_append batch
  cases hres : get_quote (save_quotes [] batch) symbol none with
  | none =>
      rw [hdb] at hres
      exact absurd hq₀s ((get_quote_latest_eq_none_iff).mp hres q₀ hq₀)
  | some q =>
      rw [hdb] at hres
      obtain ⟨hq, hqs, hmax⟩ := get_quote_latest_some hres
      refine ⟨q, rfl, hq, hqs, hmax, ?_⟩
      intro hval hoff r hr hrs
      exact (isoString_le_iff_not_keyLt (hval r hr) (hval q hq)
        ((hoff r hr).trans (hoff q hq).symm)).mp (hmax r hr hrs)

/-- Witness for the amended C5: saving a concrete three-quote batch into
an empty store and asking for "BTCUSDT" returns a row. -/
theorem latest_quote_roundtrip_witness :
    (get_quote
        (save_quotes []
          [⟨"BTCUSDT", 1, ⟨2023, 1, 1, 9, 0, 0, 0, some 0⟩⟩,
           ⟨"BTCUSDT", 2, ⟨2023, 1, 1, 10, 0, 0, 0, some 0⟩⟩,
           ⟨"ETHUSDT", 3, ⟨2023, 1, 1, 11, 0, 0, 0, some 0⟩⟩])
        "BTCUSDT" none).isSome = true := by
  obtain ⟨q, hq, -⟩ := latest_quote_roundtrip.2
    [⟨"BTCUSDT", 1, ⟨2023, 1, 1, 9, 0, 0, 0, some 0⟩⟩,
     ⟨"BTCUSDT", 2, ⟨2023, 1, 1, 10, 0, 0, 0, some 0⟩⟩,
     ⟨"ETHUSDT", 3, ⟨2023, 1, 1, 11, 0, 0, 0, some 0⟩⟩]
    "BTCUSDT" ⟨"BTCUSDT", 1, ⟨2023, 1, 1, 9, 0, 0, 0, some 0⟩⟩
    (by decide) (by decide)
  rw [hq]
  rfl

/-- C7 counterexample: with `now = 2023-01-08T00:00:00+00:00` and a
7-day retention, the cutoff is 2023-01-01T00:00:00+00:00; a quote stamped
2023-01-01T04:00:00+05:00 denotes 2022-12-31T23:00:00 UTC — strictly
older than the cutoff — yet its ISO TEXT compares above the cutoff TEXT,
so the `DELETE` retains it: the deleted set is not exactly the rows older
than `now − retentionDays`. -/
theorem cleanup_counterexample :
    cleanup_old_quotes [⟨"X", 1, ⟨2023, 1, 1, 4, 0, 0, 0, some 300⟩⟩]
        ⟨2023, 1, 8, 0, 0, 0, 0, some 0⟩ 7 =
      [⟨"X", 1, ⟨2023, 1, 1, 4, 0, 0, 0, some 300⟩⟩] ∧
      instantUs ⟨2023, 1, 1, 4, 0, 0, 0, some 300⟩ <
        instantUs ⟨2023, 1, 8, 0, 0, 0, 0, some 0⟩ - 7 * 86400000000 := by
  exact ⟨by decide, by decide⟩

/-- C7 (amended): `cleanup_old_quotes` retains exactly the rows whose
ISO-timestamp TEXT is not lexicographically below the cutoff's
(`now − retentionDays` with time-of-day and offset kept), deleting the
rest; for rows whose timestamps carry the cutoff's own UTC offset
representation this deletes exactly the rows calendar-chronologically
older than the cutoff and retains every row at or after it — in
particular a UTC row stamped 8 days ago is removed by a 7-day retention
and a row stamped `now` survives, as the original claim states. -/
theorem cleanup_retention_characterization :
    ∀ (db : QuoteDb) (nowUtc : PyDateTime) (retention_days : Nat),
      (∀ r, r ∈ cleanup_old_quotes db nowUtc retention_days ↔
        r ∈ db ∧
          ¬ isoString r.timestamp < isoString (sub_days nowUtc retention_days)) ∧
      (PyValid (sub_days nowUtc retention_days) →
        (∀ r ∈ db, PyValid r.timestamp ∧
          r.timestamp.offset = (sub_days nowUtc retention_days).offset) →
        ∀ r ∈ db, (r ∈ cleanup_old_quotes db nowUtc retention_days ↔
          ¬ keyLt r.timestamp (sub_days nowUtc retention_days))) := by
  intro db nowUtc k
  have h1 : ∀ r, r ∈ cleanup_old_quotes db nowUtc k ↔
      r ∈ db ∧ ¬ isoString r.timestamp < isoString (sub_days nowUtc k) := by
    intro r
    simp only [cleanup_old_quotes, List.mem_filter, Bool.not_eq_true',
      isoLtB_eq_false_iff]
  refine ⟨h1, ?_⟩
  intro hvc hdb r hr
  rw [h1 r, isoString_lt_iff_keyLt (hdb r hr).1 hvc (hdb r hr).2]
  exact ⟨fun h => h.2, fun h => ⟨hr, h⟩⟩

/-- Witness for the amended C7: under a 7-day retention with
`now = 2023-01-08T12:00:00+00:00`, a UTC quote stamped 8 days ago
(2022-12-31T12:00:00+00:00) is deleted and one stamped `now` is
retained. -/
theorem cleanup_retention_witness :
    (⟨"OLD", 1, ⟨2022, 12, 31, 12, 0, 0, 0, some 0⟩⟩ : Quote) ∉
        cleanup_old_quotes
          [⟨"OLD", 1, ⟨2022, 12, 31, 12, 0, 0, 0, some 0⟩⟩,
           ⟨"NEW", 2, ⟨2023, 1, 8, 12, 0, 0, 0, some 0⟩⟩]
          ⟨2023, 1, 8, 12, 0, 0, 0, some 0⟩ 7 ∧
      (⟨"NEW", 2, ⟨2023, 1, 8, 12, 0, 0, 0, some 0⟩⟩ : Quote) ∈
        cleanup_old_quotes
          [⟨"OLD", 1, ⟨2022, 12, 31, 12, 0, 0, 0, some 0⟩⟩,
           ⟨"NEW", 2, ⟨2023, 1, 8, 12, 0, 0, 0, some 0⟩⟩]
          ⟨2023, 1, 8, 12, 0, 0, 0, some 0⟩ 7 := by
  have h := (cleanup_retention_characterization
      [⟨"OLD", 1, ⟨2022, 12, 31, 12, 0, 0, 0, some 0⟩⟩,
       ⟨"NEW", 2, ⟨2023, 1, 8, 12, 0, 0, 0, some 0⟩⟩]
      ⟨2023, 1, 8, 12, 0, 0, 0, some 0⟩ 7).2 (by decide) (by decide)
  constructor
  · intro hmem
    exact (h ⟨"OLD", 1, ⟨2022, 12, 31, 12, 0, 0, 0, some 0⟩⟩
      (by decide)).mp hmem (by decide)
  · exact (h ⟨"NEW", 2, ⟨2023, 1, 8, 12, 0, 0, 0, some 0⟩⟩
      (by decide)).mpr (by decide)

end CryptoConverter
